import Mathlib

/-!
Verification of the `footnote_linker` Pelican plug-in
(`src/pelican/plugins/footnote_linker/footnote_linker.py`).

The embedding models the core `link_footnotes` routine with the default
marker pattern (`REFERENCE_REGEX_DEFAULT = r"\[ref\d+\]"`).  Content is a
list of characters (Python `str`); the compiled regular expressions of the
source are modelled by explicit scanners with the same match semantics:

* `re_reference = ((?:.|\n)*?)(\[ref\d+\])` — `refScan` / `refDecomp`
  produces the successive non-overlapping matches, each a gap (group 1)
  followed by a marker (group 2); the matches tile the content from
  position 0, and the trailing unmatched text is returned separately.
* `re_footnote = ((?:.|\n)*?)<p>(\[ref\d+\])((?:.|\n)*?)</p>` — `fnScan` /
  `fnDecomp` produces matches consisting of a gap, a leading marker right
  after a literal `<p>`, and a non-greedy body up to the first `</p>`.
* `RE_FOOTNOTE_HEADING = <h[234]>Footnotes` — `headingAt` / `headingPos`.

Python exceptions are modelled by `Except`: `LinkError.indexError` is the
`IndexError` of `REF_SUBNAMES[ref_num - 1]`, and `LinkError.nameError` is
the `UnboundLocalError` of `first_footnote` at line 149 when the citation
sweep finishes without ever breaking.  `logger.warning` calls are modelled
by the returned list of `Warning` values.  The `citIds` and `noteAnchors`
fields of `LinkResult` are ghost observations recording, in emission
order, the `(ordinal, subIndex)` of every generated citation link id and
the ordinal of every rewritten footnote paragraph anchor.
-/

set_option autoImplicit false
set_option maxRecDepth 100000
set_option synthInstance.maxHeartbeats 1000000

namespace FootnoteLinker

/-- Python strings, as lists of characters. -/
abbrev Chars := List Char

/-- Character data of a string literal. -/
def str (s : String) : Chars := s.data

/-- Decimal rendering of a natural number, as produced by Python `str(n)`
inside the f-strings of the source (fuel-driven so it evaluates in the
kernel). -/
def natToCharsAux : Nat → Nat → Chars
  | 0, _ => []
  | fuel + 1, n =>
    if n < 10 then [Nat.digitChar n]
    else natToCharsAux fuel (n / 10) ++ [Nat.digitChar (n % 10)]

/-- Decimal rendering of a natural number. -/
def natToChars (n : Nat) : Chars := natToCharsAux (n + 1) n

/-- A successful match of `\[ref\d+\]` starting exactly at the given text:
returns the full marker (brackets included, as captured by group 2 of
`re_reference`) and the remaining text after it. -/
def markerAt : Chars → Option (Chars × Chars)
  | '[' :: 'r' :: 'e' :: 'f' :: rest =>
    let digits := rest.takeWhile Char.isDigit
    if digits.isEmpty then none
    else
      match rest.dropWhile Char.isDigit with
      | ']' :: after => some ('[' :: 'r' :: 'e' :: 'f' :: (digits ++ [']']), after)
      | _ => none
  | _ => none

/-- One match of `RE_FOOTNOTE_HEADING = <h[234]>Footnotes` starting exactly
at the given text. -/
def headingAt : Chars → Bool
  | '<' :: 'h' :: d :: '>' :: rest =>
    (d == '2' || d == '3' || d == '4') && (str "Footnotes").isPrefixOf rest
  | _ => false

/-- Offset of the first heading match, as found by
`RE_FOOTNOTE_HEADING.search(item._content)` (line 88). -/
def headingPos : Chars → Option Nat
  | [] => none
  | c :: rest =>
    if headingAt (c :: rest) then some 0 else (headingPos rest).map (· + 1)

/-- One match of `re_reference`: group 1 (the non-greedy gap since the end
of the previous match) and group 2 (the marker). -/
structure RefM where
  gap : Chars
  marker : Chars
deriving DecidableEq, Repr

/-- Successive matches of `re_reference.finditer` over the text, plus the
unmatched trailing text.  `fuel` dominates the number of scanning steps;
it is instantiated with the content length so it never runs out. -/
def refScan : Nat → Chars → Chars → List RefM × Chars
  | 0, acc, rest => ([], acc.reverse ++ rest)
  | _ + 1, acc, [] => ([], acc.reverse)
  | fuel + 1, acc, c :: cs =>
    match markerAt (c :: cs) with
    | some (m, after) =>
      let r := refScan fuel [] after
      (⟨acc.reverse, m⟩ :: r.1, r.2)
    | none => refScan fuel (c :: acc) cs

/-- All matches of `re_reference.finditer` (line 80) and the trailing
unmatched text. -/
def refDecomp (content : Chars) : List RefM × Chars :=
  refScan (content.length + 1) [] content

/-- Splits text at the first occurrence of the literal `</p>`: the part
before it (group 3 of `re_footnote`, matched non-greedily) and the part
after it. -/
def splitAtClose : Chars → Option (Chars × Chars)
  | [] => none
  | c :: cs =>
    if (str "</p>").isPrefixOf (c :: cs) then some ([], (c :: cs).drop 4)
    else (splitAtClose cs).map (fun p => (c :: p.1, p.2))

/-- A footnote-block match starting exactly at the given text: a literal
`<p>`, a marker, and a body up to the first `</p>`.  Returns the marker,
the body, and the remaining text after `</p>`.  If no `</p>` follows the
marker, no match starts here, and (since the closing-tag requirement is
monotone along the text) none starts later either. -/
def fnBlockAt : Chars → Option (Chars × Chars × Chars)
  | '<' :: 'p' :: '>' :: rest =>
    match markerAt rest with
    | some (m, after) =>
      match splitAtClose after with
      | some (w, a) => some (m, w, a)
      | none => none
    | none => none
  | _ => none

/-- One match of `re_footnote`: group 1 (gap), group 2 (marker) and
group 3 (body).  Group 0 is `gap ++ "<p>" ++ marker ++ within ++ "</p>"`. -/
structure FnM where
  gap : Chars
  marker : Chars
  within : Chars
deriving DecidableEq, Repr

/-- Successive matches of `re_footnote.finditer` over the text, plus the
unmatched trailing text. -/
def fnScan : Nat → Chars → Chars → List FnM × Chars
  | 0, acc, rest => ([], acc.reverse ++ rest)
  | _ + 1, acc, [] => ([], acc.reverse)
  | fuel + 1, acc, c :: cs =>
    match fnBlockAt (c :: cs) with
    | some (m, w, after) =>
      let r := fnScan fuel [] after
      (⟨acc.reverse, m, w⟩ :: r.1, r.2)
    | none => fnScan fuel (c :: acc) cs

/-- All matches of `re_footnote.finditer` (lines 98 and 155) and the
trailing unmatched text. -/
def fnDecomp (content : Chars) : List FnM × Chars :=
  fnScan (content.length + 1) [] content

/-- The `Footnote` dataclass (lines 44-63).  `html_id` is derived from
`num`, and is rendered by `noteId`. -/
structure Footnote where
  num : Nat
  refCount : Nat
deriving DecidableEq, Repr

/-- `REF_SUBNAMES = "abcdefghijklmnopqrstuvwxyz"` (line 19). -/
def REF_SUBNAMES : Chars := str "abcdefghijklmnopqrstuvwxyz"

/-- `Footnote.get_ref_name` (line 59): `REF_SUBNAMES[ref_num - 1]`, which
raises `IndexError` (here: `none`) when `ref_num > 26`. -/
def getRefName (refNum : Nat) : Option Char := REF_SUBNAMES[refNum - 1]?

/-- The sub-label character, total version used in statements. -/
def subChar (refNum : Nat) : Char := (getRefName refNum).getD '?'

/-- `Footnote.html_id = f"note-{self.num}"` (line 52). -/
def noteId (f : Footnote) : Chars := str "note-" ++ natToChars f.num

/-- `Footnote.get_ref_html_id` (line 62): `f"ref-{self.num}{sub}"`.  Note
that it renders `self.num` — the ordinal — not the raw footnote key. -/
def getRefHtmlId (f : Footnote) (refNum : Nat) : Option Chars :=
  (getRefName refNum).map (fun c => str "ref-" ++ natToChars f.num ++ [c])

/-- Total rendering of a citation id from an `(ordinal, subIndex)` pair,
used in statements; agrees with `getRefHtmlId` for subIndex in 1..26. -/
def refIdStr (p : Nat × Nat) : Chars :=
  str "ref-" ++ natToChars p.1 ++ [subChar p.2]

/-- The warnings the routine can log. -/
inductive Warning where
  | noHeading (numRefs : Nat)
  | noFootnotes (numRefs : Nat)
  | refsWithoutFootnotes (keys : List Chars)
  | footnotesWithoutRefs (keys : List Chars)
deriving DecidableEq, Repr

/-- The exceptions the routine can raise: the `IndexError` from
`REF_SUBNAMES[ref_num - 1]` and the `UnboundLocalError` on
`first_footnote` at line 149. -/
inductive LinkError where
  | indexError
  | nameError
deriving DecidableEq, Repr

/-- The observable result of `link_footnotes`: the new content, the logged
warnings, and ghost observations of the generated citation link ids (as
`(ordinal, subIndex)` pairs) and rewritten footnote anchors (ordinals). -/
structure LinkResult where
  content : Chars
  warnings : List Warning
  citIds : List (Nat × Nat)
  noteAnchors : List Nat
deriving DecidableEq, Repr

/-- First-match lookup in the footnotes dict (`footnotes[footnote_name]`,
`footnote_name in footnotes`). -/
def alookup : List (Chars × Footnote) → Chars → Option Footnote
  | [], _ => none
  | p :: rest, key => if p.1 = key then some p.2 else alookup rest key

/-- In-place value update of an insertion-ordered dict entry. -/
def aupdate : List (Chars × Footnote) → Chars → Footnote → List (Chars × Footnote)
  | [], _, _ => []
  | p :: rest, key, f => if p.1 = key then (key, f) :: rest else p :: aupdate rest key f

/-- Lines 120-126: a trailing ordinary space of the text before a marker
is replaced by `&nbsp;`. -/
def nbspFix (s : Chars) : Chars :=
  if s.getLast? = some ' ' then s.dropLast ++ str "&nbsp;" else s

/-- Lines 138-143: look up or create the `Footnote` for a key (creation
assigns ordinal `len(footnotes) + 1`) and run `add_ref`, which increments
`ref_count`.  Returns the incremented footnote and the updated dict. -/
def bump (fns : List (Chars × Footnote)) (key : Chars) : Footnote × List (Chars × Footnote) :=
  match alookup fns key with
  | none =>
    let f : Footnote := ⟨fns.length + 1, 1⟩
    (f, fns ++ [(key, f)])
  | some f0 =>
    let f : Footnote := ⟨f0.num, f0.refCount + 1⟩
    (f, aupdate fns key f)

/-- Line 146: `f'[<a href="#{footnote.html_id}" id="{ref_id}">{footnote.num}</a>]'`. -/
def citationHtml (f : Footnote) (refId : Chars) : Chars :=
  str "[<a href=\"#" ++ noteId f ++ str "\" id=\"" ++ refId ++ str "\">" ++
    natToChars f.num ++ str "</a>]"

/-- The citation sweep (lines 112-147).  Arguments: remaining reference
matches, current absolute offset (end of the previous match), the heading
offset, and the footnotes dict.  Returns the emitted text, the final
dict, the ghost citation-id list, and `some endOffset` of the stopping
match when the loop broke at a marker at/after the heading (line 130), or
`none` when the loop ran out of matches without breaking. -/
def sweepRefs : List RefM → Nat → Nat → List (Chars × Footnote) →
    Except LinkError (Chars × List (Chars × Footnote) × List (Nat × Nat) × Option Nat)
  | [], _, _, fns => .ok ([], fns, [], none)
  | m :: rest, pos, hpos, fns =>
    let mpos := pos + m.gap.length
    let before := nbspFix m.gap
    if hpos ≤ mpos then
      .ok (before ++ m.marker, fns, [], some (mpos + m.marker.length))
    else
      let bf := bump fns m.marker
      match getRefHtmlId bf.1 bf.1.refCount with
      | none => .error .indexError
      | some refId =>
        match sweepRefs rest (mpos + m.marker.length) hpos bf.2 with
        | .error e => .error e
        | .ok (em, fns2, ids, brk) =>
          .ok (before ++ citationHtml bf.1 refId ++ em, fns2,
               (bf.1.num, bf.1.refCount) :: ids, brk)

/-- One back-reference link of the comprehension at line 183:
`f'<a href="#{get_ref_html_id(i)}">^{get_ref_name(i)}</a>'`. -/
def backlinkHtml (f : Footnote) (i : Nat) : Option Chars :=
  match getRefHtmlId f i, getRefName i with
  | some rid, some nm => some (str "<a href=\"#" ++ rid ++ str "\">^" ++ [nm] ++ str "</a>")
  | _, _ => none

/-- `"".flatten` of the back-reference links for the given indices, with the
`IndexError` of an out-of-range sub-label propagated. -/
def joinLinks (f : Footnote) : List Nat → Option Chars
  | [] => some []
  | i :: is =>
    match backlinkHtml f i, joinLinks f is with
    | some s, some rest => some (s ++ rest)
    | _, _ => none

/-- Lines 178-187: the back-reference link section of a rewritten footnote
paragraph.  A single citation renders one bare `^` arrow; several render
`^a^b...` concatenated; both are prefixed by one space. -/
def refLinks (f : Footnote) : Option Chars :=
  if f.refCount = 1 then
    (getRefHtmlId f 1).map
      (fun rid => str " <a href=\"#" ++ rid ++ str "\">^</a>")
  else
    (joinLinks f (List.range' 1 f.refCount)).map (fun s => ' ' :: s)

/-- Line 190: `f'<p id="{html_id}">[{num}] {content_within}{reference_links}</p>'`. -/
def paraHtml (f : Footnote) (within links : Chars) : Chars :=
  str "<p id=\"" ++ noteId f ++ str "\">[" ++ natToChars f.num ++ str "] " ++
    within ++ links ++ str "</p>"

/-- The footnote sweep (lines 162-191).  Returns the emitted text, the
processed keys, the keys of footnotes without references, and the ghost
anchor list.  A key absent from the dict re-emits `match.group(0)`, which
includes group 1, so the gap is emitted twice (line 167 and line 173). -/
def sweepFns : List FnM → List (Chars × Footnote) →
    Except LinkError (Chars × List Chars × List Chars × List Nat)
  | [], _ => .ok ([], [], [], [])
  | fm :: rest, fns =>
    match alookup fns fm.marker with
    | none =>
      match sweepFns rest fns with
      | .error e => .error e
      | .ok (em, pk, orph, an) =>
        .ok (fm.gap ++ (fm.gap ++ str "<p>" ++ fm.marker ++ fm.within ++ str "</p>") ++ em,
             fm.marker :: pk, fm.marker :: orph, an)
    | some f =>
      match refLinks f with
      | none => .error .indexError
      | some links =>
        match sweepFns rest fns with
        | .error e => .error e
        | .ok (em, pk, orph, an) =>
          .ok (fm.gap ++ paraHtml f fm.within links ++ em,
               fm.marker :: pk, orph, f.num :: an)

/-- Lines 112-217: the rewriting part of `link_footnotes`, reached once
all three guards have passed.  When the citation sweep never breaks, the
read of `first_footnote` at line 149 raises (`nameError`).  When the
second footnote scan (line 155) finds no match, the loop variable `match`
at line 193 still holds the stopping reference match, whose span is an
offset into the original content, applied here to the rewritten one. -/
def linkRewrite (content : Chars) (hpos : Nat) : Except LinkError LinkResult :=
  match sweepRefs (refDecomp content).1 0 hpos [] with
  | .error e => .error e
  | .ok (em, fns, ids, obrk) =>
    match obrk with
    | none => .error .nameError
    | some brkEnd =>
      let cw := em ++ content.drop brkEnd
      let fms := (fnDecomp cw).1
      match sweepFns fms fns with
      | .error e => .error e
      | .ok (em2, processed, orphans, anchors) =>
        let contentAfter := if fms.isEmpty then cw.drop brkEnd else (fnDecomp cw).2
        let rwf := (fns.map Prod.fst).filter (fun k => ¬ processed.contains k)
        let w1 : List Warning :=
          if rwf.isEmpty then [] else [.refsWithoutFootnotes rwf]
        let w2 : List Warning :=
          if orphans.isEmpty then [] else [.footnotesWithoutRefs orphans]
        .ok ⟨em2 ++ contentAfter, w1 ++ w2, ids, anchors⟩

/-- `link_footnotes` (lines 67-217), with the default marker pattern.
Returns the rewritten content and the logged warnings, or the raised
exception. -/
def linkFootnotes (content : Chars) : Except LinkError LinkResult :=
  if (refDecomp content).1.isEmpty then .ok ⟨content, [], [], []⟩
  else
    match headingPos content with
    | none => .ok ⟨content, [.noHeading (refDecomp content).1.length], [], []⟩
    | some hpos =>
      if (fnDecomp content).1.isEmpty then
        .ok ⟨content, [.noFootnotes (refDecomp content).1.length], [], []⟩
      else linkRewrite content hpos

/-- The markers of the matches the citation sweep treats as in-text
citations: the longest prefix of the match list whose marker offsets lie
strictly before the heading offset (offsets increase along the list). -/
def preKeys : List RefM → Nat → Nat → List Chars
  | [], _, _ => []
  | m :: rest, pos, hpos =>
    let mpos := pos + m.gap.length
    if hpos ≤ mpos then []
    else m.marker :: preKeys rest (mpos + m.marker.length) hpos

/-- Current citation count of a key in the dict (0 if absent). -/
def countKeyIn (fns : List (Chars × Footnote)) (key : Chars) : Nat :=
  match alookup fns key with
  | some f => f.refCount
  | none => 0

/-- Current citation count of the entry with the given ordinal (0 if
absent). -/
def countIn : List (Chars × Footnote) → Nat → Nat
  | [], _ => 0
  | p :: rest, n => if p.2.num = n then p.2.refCount else countIn rest n

/-- Modelled from the spec: the distinct keys of a list in order of first
appearance ("assigned in order of first appearance among in-text
citations").  Used only to state the ordinal-assignment claim. -/
def firstOccsAux (seen : List Chars) : List Chars → List Chars
  | [] => []
  | k :: ks =>
    if k ∈ seen then firstOccsAux seen ks
    else k :: firstOccsAux (k :: seen) ks

/-- Modelled from the spec: first-appearance order of distinct keys. -/
def firstOccs (ks : List Chars) : List Chars := firstOccsAux [] ks

/-- Substring test, used to state facts about generated output. -/
def containsSub : Chars → Chars → Bool
  | [], pat => pat.isEmpty
  | c :: rest, pat => pat.isPrefixOf (c :: rest) || containsSub rest pat

deriving instance DecidableEq for Except

/-! ## Basic lemmas about the embedded helpers -/

theorem bump_refCount_pos (fns : List (Chars × Footnote)) (k : Chars) :
    1 ≤ (bump fns k).1.refCount := by
  unfold bump
  cases alookup fns k <;> simp

theorem getRefName_eq_subChar (j : Nat) (h1 : 1 ≤ j) (h2 : j ≤ 26) :
    getRefName j = some (subChar j) := by
  have hlt : j - 1 < REF_SUBNAMES.length := by
    have : REF_SUBNAMES.length = 26 := rfl
    omega
  rw [getRefName, List.getElem?_eq_getElem hlt]
  simp [subChar, getRefName, List.getElem?_eq_getElem hlt]

theorem getRefHtmlId_eq (f : Footnote) (j : Nat) (h1 : 1 ≤ j) (h2 : j ≤ 26) :
    getRefHtmlId f j = some (refIdStr (f.num, j)) := by
  rw [getRefHtmlId, getRefName_eq_subChar j h1 h2]
  simp [refIdStr]

theorem getRefName_le_26 (j : Nat) (c : Char) (h : getRefName j = some c) :
    j ≤ 26 := by
  rw [getRefName] at h
  rcases List.getElem?_eq_some.mp h with ⟨hlt, -⟩
  have : REF_SUBNAMES.length = 26 := rfl
  omega

/-- The three early-return guards of `link_footnotes` (lines 84-106). -/
theorem link_no_refs (c : Chars) (h : (refDecomp c).1 = []) :
    linkFootnotes c = .ok ⟨c, [], [], []⟩ := by
  simp [linkFootnotes, h]

theorem link_no_heading (c : Chars) (h1 : (refDecomp c).1 ≠ [])
    (h2 : headingPos c = none) :
    linkFootnotes c = .ok ⟨c, [.noHeading (refDecomp c).1.length], [], []⟩ := by
  simp [linkFootnotes, h1, h2]

theorem link_no_blocks (c : Chars) (hpos : Nat) (h1 : (refDecomp c).1 ≠ [])
    (h2 : headingPos c = some hpos) (h3 : (fnDecomp c).1 = []) :
    linkFootnotes c = .ok ⟨c, [.noFootnotes (refDecomp c).1.length], [], []⟩ := by
  simp [linkFootnotes, h1, h2, h3]

/-- The rewriting part never produces a `noFootnotes` warning: those only
come from the guard at lines 100-106. -/
theorem linkRewrite_no_noFootnotes (c : Chars) (hpos : Nat) (r : LinkResult)
    (h : linkRewrite c hpos = .ok r) (n : Nat) :
    Warning.noFootnotes n ∉ r.warnings := by
  simp only [linkRewrite] at h
  split at h
  · simp at h
  · split at h
    · simp at h
    · split at h
      · simp at h
      · rw [Except.ok.injEq] at h
        subst h
        simp only [List.mem_append]
        rintro (hw | hw)
        · split at hw
          · simp at hw
          · simp at hw
        · split at hw
          · simp at hw
          · simp at hw

/-! ## The claims -/

/-- Failing input of claim C1: both reference markers lie strictly before
the heading (the only footnote block is above the heading), so the
citation sweep never breaks, `first_footnote` is never assigned, and
line 149 raises `UnboundLocalError` instead of warning and returning the
content unchanged. -/
theorem c1_unbound_first_footnote :
    linkFootnotes (str "[ref1]x<p>[ref1]note</p><h2>Footnotes</h2>") =
      .error .nameError := rfl

/-- C7: whenever the whole-document rewrite is aborted the content is
returned exactly unchanged: zero citation markers give zero warnings;
citations with no heading, or citations and a heading with no footnote
blocks anywhere, give exactly one warning. -/
theorem c7_aborted_rewrite_unchanged (c : Chars) :
    ((refDecomp c).1 = [] → linkFootnotes c = .ok ⟨c, [], [], []⟩) ∧
    ((refDecomp c).1 ≠ [] → headingPos c = none →
      linkFootnotes c = .ok ⟨c, [.noHeading (refDecomp c).1.length], [], []⟩) ∧
    (∀ hpos, (refDecomp c).1 ≠ [] → headingPos c = some hpos →
      (fnDecomp c).1 = [] →
      linkFootnotes c = .ok ⟨c, [.noFootnotes (refDecomp c).1.length], [], []⟩) :=
  ⟨link_no_refs c, link_no_heading c, fun hpos h1 h2 h3 => link_no_blocks c hpos h1 h2 h3⟩

/-- Witness for C7 at three concrete inputs. -/
theorem c7_witness :
    linkFootnotes (str "plain text") = .ok ⟨str "plain text", [], [], []⟩ ∧
    linkFootnotes (str "a[ref1]b") = .ok ⟨str "a[ref1]b", [.noHeading 1], [], []⟩ ∧
    linkFootnotes (str "a[ref1]b<h2>Footnotes</h2>") =
      .ok ⟨str "a[ref1]b<h2>Footnotes</h2>", [.noFootnotes 1], [], []⟩ :=
  ⟨(c7_aborted_rewrite_unchanged _).1 (by decide),
   (c7_aborted_rewrite_unchanged _).2.1 (by decide) (by decide),
   (c7_aborted_rewrite_unchanged _).2.2 8 (by decide) (by decide) (by decide)⟩

/-- Input of the C2 counterexample: the spec's own scenario, a document
whose only key is `ref5`, cited twice, with one footnote block. -/
def c2inp : Chars := str "a[ref5] b[ref5]c<h2>Footnotes</h2><p>[ref5]note</p>"

/-- Actual output of the Linker on `c2inp`. -/
def c2out : Chars :=
  str "a[<a href=\"#note-1\" id=\"ref-1a\">1</a>] b[<a href=\"#note-1\" id=\"ref-1b\">1</a>]c<h2>Footnotes</h2><p id=\"note-1\">[1] note <a href=\"#ref-1a\">^a</a><a href=\"#ref-1b\">^b</a></p>"

/-- Counterexample to C2: the generated citation ids encode the ordinal
(1), not the raw key (`ref5`): the back-link section is
`<a href="#ref-1a">^a</a><a href="#ref-1b">^b</a>`, and the string
`ref-5` appears nowhere in the output, contradicting the claimed
`ref-{key}{subLabel}` ids and back-links `#ref-5a`/`#ref-5b`. -/
theorem c2_counterexample :
    linkFootnotes c2inp = .ok ⟨c2out, [], [(1, 1), (1, 2)], [1]⟩ ∧
    containsSub c2out (str "<a href=\"#ref-1a\">^a</a><a href=\"#ref-1b\">^b</a>") = true ∧
    containsSub c2out (str "ref-5") = false :=
  ⟨rfl, by decide, by decide⟩

/-- C2 (amended): a rewritten in-text citation emits
`citationHtml f (refIdStr (f.num, f.refCount))` — the bracketed ordinal
wrapped in a hyperlink to `#note-{ordinal}` whose element id is
`ref-{ordinal}{subLabel}` and whose visible text is the ordinal (see
`citationHtml`, `refIdStr`, `noteId`); the raw key enters the dictionary
lookup only, never the replacement text. -/
theorem c2_citation_replacement (m : RefM) (ms : List RefM) (pos hpos : Nat)
    (fns : List (Chars × Footnote)) (h : pos + m.gap.length < hpos)
    (hc : (bump fns m.marker).1.refCount ≤ 26) :
    sweepRefs (m :: ms) pos hpos fns =
      (sweepRefs ms (pos + m.gap.length + m.marker.length) hpos
          (bump fns m.marker).2).map
        (fun r =>
          (nbspFix m.gap ++
             citationHtml (bump fns m.marker).1
               (refIdStr ((bump fns m.marker).1.num, (bump fns m.marker).1.refCount)) ++
             r.1,
           r.2.1,
           ((bump fns m.marker).1.num, (bump fns m.marker).1.refCount) :: r.2.2.1,
           r.2.2.2)) := by
  have hb : 1 ≤ (bump fns m.marker).1.refCount := bump_refCount_pos fns m.marker
  have hid := getRefHtmlId_eq (bump fns m.marker).1 (bump fns m.marker).1.refCount hb hc
  simp only [sweepRefs]
  rw [if_neg (by omega), hid]
  cases hs : sweepRefs ms (pos + m.gap.length + m.marker.length) hpos
      (bump fns m.marker).2 with
  | error e => simp [Except.map]
  | ok t => simp [Except.map]

/-- Witness for C2 (amended) at a concrete input. -/
theorem c2_witness :
    sweepRefs [⟨[], str "[ref5]"⟩] 0 10 [] =
      .ok (citationHtml ⟨1, 1⟩ (refIdStr (1, 1)), [(str "[ref5]", ⟨1, 1⟩)],
        [(1, 1)], none) :=
  (c2_citation_replacement ⟨[], str "[ref5]"⟩ [] 0 10 [] (by decide)
    (by decide)).trans rfl

/-- Input of the C3 counterexample: the document's only `<p>{marker}`
paragraph lies strictly before the heading. -/
def c3inp : Chars := str "[ref1]a<p>[ref2]n</p><h2>Footnotes</h2>"

/-- Counterexample to C3: the paragraph before the heading is matched and
counted as a footnote block (the `re_footnote` scan has no heading
restriction), so the "no footnotes" guard is not taken — instead the run
proceeds and crashes on the unassigned `first_footnote`.  The block's
`<p>` starts at offset 7, the heading at offset 21. -/
theorem c3_counterexample :
    (fnDecomp c3inp).1 = [⟨str "[ref1]a", str "[ref2]", str "n"⟩] ∧
    headingPos c3inp = some 21 ∧
    (str "[ref1]a").length < 21 ∧
    linkFootnotes c3inp ≠ .ok ⟨c3inp, [.noFootnotes (refDecomp c3inp).1.length], [], []⟩ ∧
    linkFootnotes c3inp = .error .nameError :=
  ⟨rfl, rfl, by decide, by decide, rfl⟩

/-- C3 (amended): footnote-block paragraphs are matched and counted over
the whole document, regardless of their position relative to the heading:
the "no footnotes; skipping" outcome occurs exactly when the document has
no `<p>{marker}...</p>` match anywhere at all. -/
theorem c3_blocks_counted_anywhere (c : Chars) :
    linkFootnotes c = .ok ⟨c, [.noFootnotes (refDecomp c).1.length], [], []⟩ ↔
    ((refDecomp c).1 ≠ [] ∧ headingPos c ≠ none ∧ (fnDecomp c).1 = []) := by
  constructor
  · intro h
    by_cases h1 : (refDecomp c).1 = []
    · rw [link_no_refs c h1] at h
      simp at h
    · cases hh : headingPos c with
      | none =>
        rw [link_no_heading c h1 hh] at h
        simp at h
      | some hp =>
        by_cases h3 : (fnDecomp c).1 = []
        · exact ⟨h1, by simp [hh], h3⟩
        · have hlr : linkRewrite c hp =
              .ok ⟨c, [.noFootnotes (refDecomp c).1.length], [], []⟩ := by
            rw [← h]; simp [linkFootnotes, h1, hh, h3]
          have := linkRewrite_no_noFootnotes c hp _ hlr (refDecomp c).1.length
          simp at this
  · rintro ⟨h1, h2, h3⟩
    cases hh : headingPos c with
    | none => exact absurd hh h2
    | some hp => exact link_no_blocks c hp h1 hh h3

/-- Witness for C3 (amended) at a concrete input. -/
theorem c3_witness :
    linkFootnotes (str "q[ref3]r<h3>Footnotes</h3>") =
      .ok ⟨str "q[ref3]r<h3>Footnotes</h3>", [.noFootnotes 1], [], []⟩ :=
  (c3_blocks_counted_anywhere _).mpr ⟨by decide, by decide, by decide⟩

/-- C4 (amended): the stopping occurrence (the first marker at/after the
heading offset) ends the sweep and is re-emitted as literal marker text,
but the space-to-`&nbsp;` replacement is applied to the text preceding
it too, because lines 120-126 run before the offset test of line 130. -/
theorem c4_stop_nbsp (m : RefM) (ms : List RefM) (pos hpos : Nat)
    (fns : List (Chars × Footnote)) (h : hpos ≤ pos + m.gap.length) :
    sweepRefs (m :: ms) pos hpos fns =
      .ok (nbspFix m.gap ++ m.marker, fns, [],
        some (pos + m.gap.length + m.marker.length)) ∧
    (m.gap.getLast? = some ' ' → nbspFix m.gap = m.gap.dropLast ++ str "&nbsp;") ∧
    (m.gap.getLast? ≠ some ' ' → nbspFix m.gap = m.gap) := by
  refine ⟨?_, fun hsp => ?_, fun hsp => ?_⟩
  · simp only [sweepRefs]; rw [if_pos h]
  · simp [nbspFix, hsp]
  · simp [nbspFix, hsp]

/-- Witness for C4 (amended) at a concrete input. -/
theorem c4_witness :
    sweepRefs [⟨str "w ", str "[ref1]"⟩] 0 0 [] =
      .ok (nbspFix (str "w ") ++ str "[ref1]", [], [], some 8) ∧
    nbspFix (str "w ") = (str "w ").dropLast ++ str "&nbsp;" :=
  ⟨(c4_stop_nbsp ⟨str "w ", str "[ref1]"⟩ [] 0 0 [] (by decide)).1,
   (c4_stop_nbsp ⟨str "w ", str "[ref1]"⟩ [] 0 0 [] (by decide)).2.1 (by decide)⟩

/-- Input of the C4 counterexample: the text before the stopping marker
(the bare `[ref1]` after the heading) ends in an ordinary space. -/
def c4inp : Chars := str "a[ref1] b<h2>Footnotes</h2> [ref1] <p>[ref1]n</p>"

/-- Actual output of the Linker on `c4inp`. -/
def c4out : Chars :=
  str "a[<a href=\"#note-1\" id=\"ref-1a\">1</a>] b<h2>Footnotes</h2>&nbsp;[ref1] <p id=\"note-1\">[1] n <a href=\"#ref-1a\">^</a></p>"

/-- Output C4 would require: the text before the stopping occurrence kept
verbatim, its trailing ordinary space untouched. -/
def c4claimed : Chars :=
  str "a[<a href=\"#note-1\" id=\"ref-1a\">1</a>] b<h2>Footnotes</h2> [ref1] <p id=\"note-1\">[1] n <a href=\"#ref-1a\">^</a></p>"

/-- Counterexample to C4: the space immediately before the stopping
occurrence is also replaced with `&nbsp;`, so the text preceding it is
not emitted unchanged. -/
theorem c4_counterexample :
    linkFootnotes c4inp = .ok ⟨c4out, [], [(1, 1)], [1]⟩ ∧
    containsSub c4out (str "</h2>&nbsp;[ref1]") = true ∧
    containsSub c4out (str "</h2> [ref1]") = false ∧
    c4out ≠ c4claimed :=
  ⟨rfl, by decide, by decide, by decide⟩

/-- Input of the C5 counterexample: the footnote block for `[ref2]` has
no citation, so it is re-emitted raw by the footnote sweep — via
`match.group(0)`, which still contains group 1, duplicating everything
before the block. -/
def c5inp : Chars := str "x[ref1]y<h2>Footnotes</h2><p>[ref2]o</p><p>[ref1]n</p>"

/-- Actual output of the first run on `c5inp` (note the duplicated
prefix before the orphan block). -/
def c5out1 : Chars :=
  str "x[<a href=\"#note-1\" id=\"ref-1a\">1</a>]y<h2>Footnotes</h2>x[<a href=\"#note-1\" id=\"ref-1a\">1</a>]y<h2>Footnotes</h2><p>[ref2]o</p><p id=\"note-1\">[1] n <a href=\"#ref-1a\">^</a></p>"

/-- Actual output of the second run, on `c5out1`: the orphan block still
matches the raw pattern, so the sweep runs again and duplicates the
prefix once more. -/
def c5out2 : Chars :=
  str "x[<a href=\"#note-1\" id=\"ref-1a\">1</a>]y<h2>Footnotes</h2>x[<a href=\"#note-1\" id=\"ref-1a\">1</a>]y<h2>Footnotes</h2>x[<a href=\"#note-1\" id=\"ref-1a\">1</a>]y<h2>Footnotes</h2>x[<a href=\"#note-1\" id=\"ref-1a\">1</a>]y<h2>Footnotes</h2><p>[ref2]o</p><p id=\"note-1\">[1] n <a href=\"#ref-1a\">^</a></p>"

/-- Counterexample to C5: running the Linker a second time on the output
of the first run changes the content again, because a footnote block
without references is re-emitted with its raw marker intact and its
preceding text duplicated. -/
theorem c5_counterexample :
    linkFootnotes c5inp =
      .ok ⟨c5out1, [.footnotesWithoutRefs [str "[ref2]"]], [(1, 1)], [1]⟩ ∧
    linkFootnotes c5out1 =
      .ok ⟨c5out2, [.footnotesWithoutRefs [str "[ref2]"]], [], []⟩ ∧
    c5out2 ≠ c5out1 :=
  ⟨rfl, rfl, by decide⟩

/-- C5 (amended): the second run is a no-op whenever the first run's
output no longer contains any raw citation-marker match; generated
citation links and rewritten footnote paragraphs never match the raw
pattern, but a footnote block without references is re-emitted raw and
still matches, in which case the second run rewrites (and duplicates)
again. -/
theorem c5_second_run_no_matches (c : Chars) (r : LinkResult)
    (_h : linkFootnotes c = .ok r) (h2 : (refDecomp r.content).1 = []) :
    linkFootnotes r.content = .ok ⟨r.content, [], [], []⟩ :=
  link_no_refs r.content h2

/-- Witness for C5 (amended): the spec's own concrete scenario, whose
output contains no raw marker, so the second run returns it unchanged
with no warnings. -/
def c5winp : Chars := str "<p>Hello[ref1] world.</p><h2>Footnotes</h2><p>[ref1]Some note.</p>"

/-- First-run output for `c5winp`. -/
def c5wout : Chars :=
  str "<p>Hello[<a href=\"#note-1\" id=\"ref-1a\">1</a>] world.</p><h2>Footnotes</h2><p id=\"note-1\">[1] Some note. <a href=\"#ref-1a\">^</a></p>"

/-- Witness for C5 (amended) at a concrete input. -/
theorem c5_witness :
    linkFootnotes c5winp = .ok ⟨c5wout, [], [(1, 1)], [1]⟩ ∧
    (refDecomp c5wout).1 = [] ∧
    linkFootnotes c5wout = .ok ⟨c5wout, [], [], []⟩ :=
  ⟨rfl, by decide,
   c5_second_run_no_matches c5winp ⟨c5wout, [], [(1, 1)], [1]⟩ rfl (by decide)⟩

/-- Closed form of the joined back-reference links when every index has a
sub-label. -/
theorem joinLinks_eq (f : Footnote) (l : List Nat)
    (h : ∀ i ∈ l, 1 ≤ i ∧ i ≤ 26) :
    joinLinks f l = some ((l.map (fun i =>
      str "<a href=\"#" ++ refIdStr (f.num, i) ++ str "\">^" ++ [subChar i] ++
        str "</a>")).flatten) := by
  induction l with
  | nil => simp [joinLinks]
  | cons i is ih =>
    obtain ⟨h1, h2⟩ := h i (by simp)
    have hb : backlinkHtml f i = some (str "<a href=\"#" ++ refIdStr (f.num, i) ++
        str "\">^" ++ [subChar i] ++ str "</a>") := by
      simp [backlinkHtml, getRefHtmlId_eq f i h1 h2, getRefName_eq_subChar i h1 h2]
    rw [joinLinks, hb, ih (fun j hj => h j (by simp [hj]))]
    simp

/-- C9: in a rewritten footnote paragraph, a key with exactly one
citation gets a single bare `^` back-link whose href still targets the
sub-labeled citation id `ref-{ordinal}a`; a key with n in 2..26 citations
gets n back-links `^a^b...`, concatenated with no separator in order of
appearance, the whole group prefixed by one space. -/
theorem c9_backlink_structure (f : Footnote) :
    (f.refCount = 1 →
      refLinks f = some (str " <a href=\"#" ++ refIdStr (f.num, 1) ++ str "\">^</a>")) ∧
    (2 ≤ f.refCount → f.refCount ≤ 26 →
      refLinks f = some (' ' :: ((List.range' 1 f.refCount).map (fun i =>
        str "<a href=\"#" ++ refIdStr (f.num, i) ++ str "\">^" ++ [subChar i] ++
          str "</a>")).flatten)) := by
  constructor
  · intro h1
    simp [refLinks, h1, getRefHtmlId_eq f 1 (by omega) (by omega)]
  · intro h2 h26
    rw [refLinks, if_neg (by omega), joinLinks_eq f _ ?_]
    · simp
    · intro i hi
      rw [List.mem_range'] at hi
      obtain ⟨j, hj, rfl⟩ := hi
      omega

/-- Witness for C9 at two concrete footnotes (cited once, cited three
times). -/
theorem c9_witness :
    refLinks ⟨2, 1⟩ = some (str " <a href=\"#" ++ refIdStr (2, 1) ++ str "\">^</a>") ∧
    refLinks ⟨1, 3⟩ = some (' ' :: ((List.range' 1 3).map (fun i =>
      str "<a href=\"#" ++ refIdStr (1, i) ++ str "\">^" ++ [subChar i] ++
        str "</a>")).flatten) :=
  ⟨(c9_backlink_structure ⟨2, 1⟩).1 rfl,
   (c9_backlink_structure ⟨1, 3⟩).2 (by decide) (by decide)⟩

/-! ## Dictionary lemmas for the citation sweep -/

theorem alookup_eq_none (fns : List (Chars × Footnote)) (k : Chars) :
    alookup fns k = none ↔ k ∉ fns.map Prod.fst := by
  induction fns with
  | nil => simp [alookup]
  | cons p rest ih =>
    simp only [alookup, List.map_cons, List.mem_cons]
    by_cases hp : p.1 = k
    · simp [hp]
    · rw [if_neg hp, ih]
      constructor
      · rintro hn (hk | hk)
        · exact hp hk.symm
        · exact hn hk
      · intro hn hk
        exact hn (Or.inr hk)

theorem alookup_append_of_none (fns : List (Chars × Footnote)) (q : Chars × Footnote)
    (k : Chars) (h : alookup fns k = none) :
    alookup (fns ++ [q]) k = if q.1 = k then some q.2 else none := by
  induction fns with
  | nil => simp [alookup]
  | cons p rest ih =>
    rw [alookup] at h
    by_cases hp : p.1 = k
    · simp [hp] at h
    · rw [if_neg hp] at h
      rw [List.cons_append, alookup, if_neg hp]
      exact ih h

theorem alookup_append_of_some (fns : List (Chars × Footnote)) (q : Chars × Footnote)
    (k : Chars) (f : Footnote) (h : alookup fns k = some f) :
    alookup (fns ++ [q]) k = some f := by
  induction fns with
  | nil => simp [alookup] at h
  | cons p rest ih =>
    by_cases hp : p.1 = k
    · rw [alookup, if_pos hp] at h
      rw [List.cons_append, alookup, if_pos hp]
      exact h
    · rw [alookup, if_neg hp] at h
      rw [List.cons_append, alookup, if_neg hp]
      exact ih h

theorem alookup_aupdate_self (fns : List (Chars × Footnote)) (k : Chars)
    (f0 f : Footnote) (h : alookup fns k = some f0) :
    alookup (aupdate fns k f) k = some f := by
  induction fns with
  | nil => simp [alookup] at h
  | cons p rest ih =>
    by_cases hp : p.1 = k
    · simp [aupdate, hp, alookup]
    · rw [alookup, if_neg hp] at h
      simp only [aupdate, if_neg hp, alookup]
      exact ih h

theorem alookup_aupdate_other (fns : List (Chars × Footnote)) (k k' : Chars)
    (f : Footnote) (h : k' ≠ k) :
    alookup (aupdate fns k' f) k = alookup fns k := by
  induction fns with
  | nil => simp [aupdate, alookup]
  | cons p rest ih =>
    by_cases hp : p.1 = k'
    · simp only [aupdate, if_pos hp, alookup]
      rw [if_neg h, if_neg (by rw [hp]; exact h)]
    · simp only [aupdate, if_neg hp, alookup]
      by_cases hk : p.1 = k
      · rw [if_pos hk, if_pos hk]
      · rw [if_neg hk, if_neg hk]
        exact ih

/-- `add_ref` on a key raises its count by one. -/
theorem countKeyIn_bump_self (fns : List (Chars × Footnote)) (k : Chars) :
    countKeyIn (bump fns k).2 k = countKeyIn fns k + 1 := by
  cases hlk : alookup fns k with
  | none =>
    have hbv : (bump fns k).2 = fns ++ [(k, ⟨fns.length + 1, 1⟩)] := by
      unfold bump
      rw [hlk]
    rw [countKeyIn, countKeyIn, hbv, alookup_append_of_none fns _ k hlk, hlk]
    simp
  | some f0 =>
    have hbv : (bump fns k).2 = aupdate fns k ⟨f0.num, f0.refCount + 1⟩ := by
      unfold bump
      rw [hlk]
    rw [countKeyIn, countKeyIn, hbv,
      alookup_aupdate_self fns k f0 _ hlk, hlk]

/-- `add_ref` on one key leaves other keys' counts unchanged. -/
theorem countKeyIn_bump_other (fns : List (Chars × Footnote)) (k k' : Chars)
    (h : k' ≠ k) : countKeyIn (bump fns k').2 k = countKeyIn fns k := by
  cases hlk : alookup fns k' with
  | none =>
    have hbv : (bump fns k').2 = fns ++ [(k', ⟨fns.length + 1, 1⟩)] := by
      unfold bump
      rw [hlk]
    rw [countKeyIn, countKeyIn, hbv]
    cases hak : alookup fns k with
    | none =>
      rw [alookup_append_of_none fns _ k hak]
      simp [if_neg h]
    | some fa =>
      rw [alookup_append_of_some fns _ k fa hak]
  | some f0 =>
    have hbv : (bump fns k').2 = aupdate fns k' ⟨f0.num, f0.refCount + 1⟩ := by
      unfold bump
      rw [hlk]
    rw [countKeyIn, countKeyIn, hbv, alookup_aupdate_other fns k k' _ h]

/-- The count returned with the incremented footnote. -/
theorem bump_fst_refCount (fns : List (Chars × Footnote)) (k : Chars) :
    (bump fns k).1.refCount = countKeyIn fns k + 1 := by
  unfold bump countKeyIn
  cases alookup fns k <;> simp

/-- `get_ref_name(27)` is out of range. -/
theorem getRefName_27 : getRefName 27 = none := rfl

/-- A key cited more than 26 times before the heading makes the citation
sweep raise `IndexError` from the sub-label lookup. -/
theorem sweepRefs_overflow (ms : List RefM) (pos hpos : Nat)
    (fns : List (Chars × Footnote)) (k : Chars)
    (hb : countKeyIn fns k ≤ 26)
    (h : 27 ≤ countKeyIn fns k + (preKeys ms pos hpos).count k) :
    sweepRefs ms pos hpos fns = .error .indexError := by
  induction ms generalizing pos fns with
  | nil =>
    simp [preKeys] at h
    omega
  | cons m rest ih =>
    rw [preKeys] at h
    by_cases hbr : hpos ≤ pos + m.gap.length
    · rw [if_pos hbr] at h
      simp at h
      omega
    · rw [if_neg hbr] at h
      simp only [sweepRefs]
      rw [if_neg hbr]
      by_cases hkm : m.marker = k
      · by_cases hc : countKeyIn fns k = 26
        · have h27 : (bump fns m.marker).1.refCount = 27 := by
            rw [bump_fst_refCount, hkm, hc]
          have hid : getRefHtmlId (bump fns m.marker).1
              (bump fns m.marker).1.refCount = none := by
            rw [h27, getRefHtmlId, getRefName_27]
            rfl
          rw [hid]
        · have hcnt : countKeyIn (bump fns m.marker).2 k = countKeyIn fns k + 1 := by
            rw [hkm]
            exact countKeyIn_bump_self fns k
          have hrc : (bump fns m.marker).1.refCount ≤ 26 := by
            rw [bump_fst_refCount, hkm]
            omega
          have hcm : (m.marker :: preKeys rest (pos + m.gap.length + m.marker.length)
              hpos).count k = (preKeys rest (pos + m.gap.length + m.marker.length)
              hpos).count k + 1 := by
            rw [hkm, List.count_cons_self]
          rw [getRefHtmlId_eq _ _ (bump_refCount_pos fns m.marker) hrc]
          rw [ih (pos + m.gap.length + m.marker.length) (bump fns m.marker).2
            (by omega) (by omega)]
      · cases hid : getRefHtmlId (bump fns m.marker).1
            (bump fns m.marker).1.refCount with
        | none => rfl
        | some rid =>
          have hcnt : countKeyIn (bump fns m.marker).2 k = countKeyIn fns k :=
            countKeyIn_bump_other fns k m.marker hkm
          have hcm : (m.marker :: preKeys rest (pos + m.gap.length + m.marker.length)
              hpos).count k = (preKeys rest (pos + m.gap.length + m.marker.length)
              hpos).count k := by
            rw [List.count_cons_of_ne (fun hh => hkm hh.symm)]
          rw [ih (pos + m.gap.length + m.marker.length) (bump fns m.marker).2
            (by omega) (by omega)]

/-- C10: with a heading and at least one footnote block present, a key
with 27 or more in-text citations before the heading makes the Linker
raise `IndexError` from `REF_SUBNAMES[ref_num - 1]` (there is no guard on
the 26-letter alphabet), instead of returning rewritten content or
degrading to a warning. -/
theorem c10_sublabel_overflow (c : Chars) (hpos : Nat) (k : Chars)
    (h1 : headingPos c = some hpos) (h2 : (fnDecomp c).1 ≠ [])
    (h3 : 27 ≤ (preKeys (refDecomp c).1 0 hpos).count k) :
    linkFootnotes c = .error .indexError := by
  have hms : (refDecomp c).1 ≠ [] := by
    intro he
    rw [he] at h3
    simp [preKeys] at h3
  have hz : countKeyIn [] k = 0 := rfl
  have herr : sweepRefs (refDecomp c).1 0 hpos [] = .error .indexError :=
    sweepRefs_overflow _ 0 hpos [] k (by omega) (by omega)
  simp [linkFootnotes, hms, h1, h2, linkRewrite, herr]

/-- Input for the C10 witness: one key cited 27 times before the
heading. -/
def c10inp : Chars :=
  str "[ref1][ref1][ref1][ref1][ref1][ref1][ref1][ref1][ref1][ref1][ref1][ref1][ref1][ref1][ref1][ref1][ref1][ref1][ref1][ref1][ref1][ref1][ref1][ref1][ref1][ref1][ref1]<h2>Footnotes</h2><p>[ref1]x</p>"

/-- Witness for C10 at a concrete input. -/
theorem c10_witness : linkFootnotes c10inp = .error .indexError :=
  c10_sublabel_overflow c10inp 162 (str "[ref1]") (by decide) (by decide)
    (by decide)

/-! ## Ordinal assignment (C8) -/

/-- `firstOccsAux` only depends on the membership of the seen list. -/
theorem firstOccsAux_congr (s1 s2 : List Chars) (hs : ∀ x, x ∈ s1 ↔ x ∈ s2)
    (l : List Chars) : firstOccsAux s1 l = firstOccsAux s2 l := by
  induction l generalizing s1 s2 with
  | nil => simp [firstOccsAux]
  | cons k ks ih =>
    rw [firstOccsAux, firstOccsAux]
    by_cases hk : k ∈ s1
    · rw [if_pos hk, if_pos ((hs k).mp hk)]
      exact ih s1 s2 hs
    · rw [if_neg hk, if_neg (fun hx => hk ((hs k).mpr hx))]
      rw [ih (k :: s1) (k :: s2) (fun x => by simp [hs x])]

theorem aupdate_map_fst (fns : List (Chars × Footnote)) (k : Chars) (f : Footnote) :
    (aupdate fns k f).map Prod.fst = fns.map Prod.fst := by
  induction fns with
  | nil => simp [aupdate]
  | cons p rest ih =>
    by_cases hp : p.1 = k
    · simp [aupdate, hp]
    · simp [aupdate, hp, ih]

theorem aupdate_map_num (fns : List (Chars × Footnote)) (k : Chars)
    (f0 f : Footnote) (hl : alookup fns k = some f0) (hn : f.num = f0.num) :
    (aupdate fns k f).map (fun p => p.2.num) = fns.map (fun p => p.2.num) := by
  induction fns with
  | nil => simp [alookup] at hl
  | cons p rest ih =>
    by_cases hp : p.1 = k
    · rw [alookup, if_pos hp] at hl
      injection hl with hl
      simp [aupdate, hp, hn, hl]
    · rw [alookup, if_neg hp] at hl
      simp [aupdate, hp, ih hl]

/-- Invariant of the citation sweep: ordinals are `1, 2, 3, ...` in
dictionary insertion order, and the keys are the previously seen keys
followed by the new pre-heading citation keys in order of first
appearance. -/
theorem sweepRefs_keys (ms : List RefM) (pos hpos : Nat)
    (fns : List (Chars × Footnote)) (em : Chars)
    (fns2 : List (Chars × Footnote)) (ids : List (Nat × Nat)) (brk : Option Nat)
    (h : sweepRefs ms pos hpos fns = .ok (em, fns2, ids, brk))
    (hn : fns.map (fun p => p.2.num) = List.range' 1 fns.length) :
    fns2.map (fun p => p.2.num) = List.range' 1 fns2.length ∧
    fns2.map Prod.fst =
      fns.map Prod.fst ++ firstOccsAux (fns.map Prod.fst) (preKeys ms pos hpos) := by
  induction ms generalizing pos fns em ids brk with
  | nil =>
    rw [sweepRefs] at h
    injection h with h
    injection h with h1 h
    injection h with h2 h
    subst h2
    exact ⟨hn, by simp [preKeys, firstOccsAux]⟩
  | cons m rest ih =>
    simp only [sweepRefs] at h
    by_cases hbr : hpos ≤ pos + m.gap.length
    · rw [if_pos hbr] at h
      injection h with h
      injection h with h1 h
      injection h with h2 h
      subst h2
      refine ⟨hn, ?_⟩
      rw [preKeys, if_pos hbr]
      simp [firstOccsAux]
    · rw [if_neg hbr] at h
      rw [preKeys, if_neg hbr]
      cases hid : getRefHtmlId (bump fns m.marker).1 (bump fns m.marker).1.refCount with
      | none => rw [hid] at h; simp at h
      | some rid =>
        rw [hid] at h
        cases hrec : sweepRefs rest (pos + m.gap.length + m.marker.length) hpos
            (bump fns m.marker).2 with
        | error e => rw [hrec] at h; simp at h
        | ok t =>
          rw [hrec] at h
          obtain ⟨tem, tfns, tids, tbrk⟩ := t
          injection h with h
          injection h with h1 h
          injection h with h2 h
          subst h2
          cases hlk : alookup fns m.marker with
          | none =>
            have hbv : (bump fns m.marker).2 = fns ++ [(m.marker, ⟨fns.length + 1, 1⟩)] := by
              unfold bump
              rw [hlk]
            have hn1 : ((bump fns m.marker).2).map (fun p => p.2.num) =
                List.range' 1 ((bump fns m.marker).2).length := by
              rw [hbv]
              simp only [List.map_append, List.length_append, List.map_cons,
                List.map_nil, List.length_cons, List.length_nil]
              rw [hn, List.range'_1_concat 1 fns.length]
              simp [Nat.add_comm]
            obtain ⟨ha, hb⟩ := ih (pos + m.gap.length + m.marker.length)
              (bump fns m.marker).2 tem tids tbrk hrec hn1
            refine ⟨ha, ?_⟩
            rw [hb, hbv]
            have hnm : m.marker ∉ fns.map Prod.fst := (alookup_eq_none fns m.marker).mp hlk
            rw [firstOccsAux, if_neg hnm]
            simp only [List.map_append, List.map_cons, List.map_nil]
            rw [List.append_assoc]
            congr 1
            rw [List.singleton_append]
            congr 1
            exact firstOccsAux_congr _ _ (fun x => by simp [or_comm]) _
          | some f0 =>
            have hbv : (bump fns m.marker).2 =
                aupdate fns m.marker ⟨f0.num, f0.refCount + 1⟩ := by
              unfold bump
              rw [hlk]
            have hn1 : ((bump fns m.marker).2).map (fun p => p.2.num) =
                List.range' 1 ((bump fns m.marker).2).length := by
              rw [hbv, aupdate_map_num fns m.marker f0 ⟨f0.num, f0.refCount + 1⟩ hlk rfl]
              have hlen : (aupdate fns m.marker ⟨f0.num, f0.refCount + 1⟩).length =
                  fns.length := by
                have := aupdate_map_fst fns m.marker ⟨f0.num, f0.refCount + 1⟩
                have := congrArg List.length this
                simpa using this
              rw [hlen, hn]
            obtain ⟨ha, hb⟩ := ih (pos + m.gap.length + m.marker.length)
              (bump fns m.marker).2 tem tids tbrk hrec hn1
            refine ⟨ha, ?_⟩
            rw [hb, hbv, aupdate_map_fst]
            have hm : m.marker ∈ fns.map Prod.fst := by
              by_contra hc
              rw [← alookup_eq_none fns m.marker] at hc
              rw [hc] at hlk
              cases hlk
            rw [firstOccsAux, if_pos hm]

/-- C8: footnote ordinals are 1-based and strictly increasing in
dictionary insertion order, which is the first-appearance order of
distinct keys among the in-text citations before the heading; the
statement depends only on the reference matches and the heading offset,
not on any footnote block. -/
theorem c8_ordinal_assignment (ms : List RefM) (hpos : Nat) (em : Chars)
    (fns : List (Chars × Footnote)) (ids : List (Nat × Nat)) (brk : Option Nat)
    (h : sweepRefs ms 0 hpos [] = .ok (em, fns, ids, brk)) :
    fns.map (fun p => p.2.num) = List.range' 1 fns.length ∧
    fns.map Prod.fst = firstOccs (preKeys ms 0 hpos) := by
  have := sweepRefs_keys ms 0 hpos [] em fns ids brk h (by simp)
  simpa [firstOccs] using this

/-! ## Injectivity of the generated citation id strings (for C6) -/

/-- Decimal digit characters carry their value. -/
theorem digitChar_toNat : ∀ k < 10, (Nat.digitChar k).toNat = 48 + k := by decide

/-- Decimal evaluation of a digit string. -/
def charsVal (cs : Chars) : Nat := cs.foldl (fun a c => a * 10 + (c.toNat - 48)) 0

theorem charsVal_natToCharsAux (fuel : Nat) : ∀ n, n < fuel →
    charsVal (natToCharsAux fuel n) = n := by
  induction fuel with
  | zero => omega
  | succ fuel ih =>
    intro n h
    rw [natToCharsAux]
    by_cases h10 : n < 10
    · rw [if_pos h10]
      simp only [charsVal, List.foldl_cons, List.foldl_nil]
      rw [digitChar_toNat n h10]
      omega
    · rw [if_neg h10]
      have h1 : n / 10 < fuel := by
        have : n / 10 < n := Nat.div_lt_self (by omega) (by omega)
        omega
      have hd : (Nat.digitChar (n % 10)).toNat = 48 + n % 10 :=
        digitChar_toNat _ (Nat.mod_lt _ (by omega))
      rw [charsVal, List.foldl_append]
      simp only [List.foldl_cons, List.foldl_nil]
      have hrec := ih (n / 10) h1
      rw [charsVal] at hrec
      rw [hrec, hd]
      omega

theorem natToChars_inj (m n : Nat) (h : natToChars m = natToChars n) : m = n :=
  calc m = charsVal (natToChars m) := (charsVal_natToCharsAux (m + 1) m (by omega)).symm
    _ = charsVal (natToChars n) := by rw [h]
    _ = n := charsVal_natToCharsAux (n + 1) n (by omega)

theorem concat_single_inj (l1 l2 : Chars) (c1 c2 : Char)
    (h : l1 ++ [c1] = l2 ++ [c2]) : l1 = l2 ∧ c1 = c2 := by
  have hd := congrArg List.dropLast h
  simp only [List.dropLast_concat] at hd
  have hl := congrArg List.getLast? h
  simp only [List.getLast?_concat] at hl
  exact ⟨hd, by injection hl⟩

theorem subChar_inj_aux : ∀ j1, j1 ≤ 26 → ∀ j2, j2 ≤ 26 → 1 ≤ j1 → 1 ≤ j2 →
    subChar j1 = subChar j2 → j1 = j2 := by decide

/-- On sub-indices `1..26`, distinct `(ordinal, subIndex)` pairs give
distinct id strings. -/
theorem refIdStr_inj (p q : Nat × Nat) (hp1 : 1 ≤ p.2) (hp2 : p.2 ≤ 26)
    (hq1 : 1 ≤ q.2) (hq2 : q.2 ≤ 26) (h : refIdStr p = refIdStr q) : p = q := by
  obtain ⟨n1, j1⟩ := p
  obtain ⟨n2, j2⟩ := q
  simp only [refIdStr] at h
  rw [List.append_assoc, List.append_assoc] at h
  have h' := List.append_cancel_left h
  obtain ⟨ha, hb⟩ := concat_single_inj _ _ _ _ h'
  simp only at hp1 hp2 hq1 hq2
  rw [Prod.mk.injEq]
  exact ⟨natToChars_inj _ _ ha, subChar_inj_aux j1 hp2 j2 hq2 hp1 hq1 hb⟩

/-! ## Counting lemmas indexed by ordinal (for C6) -/

theorem countIn_eq_zero_of_not_mem (fns : List (Chars × Footnote)) (n : Nat)
    (h : n ∉ fns.map (fun p => p.2.num)) : countIn fns n = 0 := by
  induction fns with
  | nil => rfl
  | cons p rest ih =>
    have hne : ¬ p.2.num = n := fun he => h (by simp [he])
    rw [countIn, if_neg hne]
    exact ih (fun hm => h (by simp [hm]))

theorem countIn_pos_mem (fns : List (Chars × Footnote)) (n : Nat)
    (h : 0 < countIn fns n) : n ∈ fns.map (fun p => p.2.num) := by
  by_contra hc
  rw [countIn_eq_zero_of_not_mem fns n hc] at h
  omega

theorem countIn_append (fns : List (Chars × Footnote)) (q : Chars × Footnote) (n : Nat) :
    countIn (fns ++ [q]) n =
      if n ∈ fns.map (fun p => p.2.num) then countIn fns n
      else if q.2.num = n then q.2.refCount else 0 := by
  induction fns with
  | nil => simp [countIn]
  | cons p rest ih =>
    by_cases hp : p.2.num = n
    · rw [List.cons_append, countIn, if_pos hp,
        if_pos (show n ∈ (p :: rest).map (fun p => p.2.num) by simp [hp]),
        countIn, if_pos hp]
    · rw [List.cons_append, countIn, if_neg hp, ih]
      by_cases hn : n ∈ rest.map (fun p => p.2.num)
      · rw [if_pos hn, if_pos (by simp [hn]), countIn, if_neg hp]
      · have hni : n ∉ (p :: rest).map (fun p => p.2.num) := by
          simp only [List.map_cons, List.mem_cons]
          rintro (h' | h')
          · exact hp h'.symm
          · exact hn h'
        rw [if_neg hn, if_neg hni]

theorem alookup_num_mem (fns : List (Chars × Footnote)) (k : Chars) (f : Footnote)
    (h : alookup fns k = some f) : f.num ∈ fns.map (fun p => p.2.num) := by
  induction fns with
  | nil => simp [alookup] at h
  | cons p rest ih =>
    by_cases hp : p.1 = k
    · rw [alookup, if_pos hp] at h
      injection h with h
      simp [h]
    · rw [alookup, if_neg hp] at h
      simp [ih h]

theorem countIn_alookup (fns : List (Chars × Footnote)) (k : Chars) (f0 : Footnote)
    (h : alookup fns k = some f0) (hnd : (fns.map (fun p => p.2.num)).Nodup) :
    countIn fns f0.num = f0.refCount := by
  induction fns with
  | nil => simp [alookup] at h
  | cons p rest ih =>
    simp only [List.map_cons, List.nodup_cons] at hnd
    by_cases hp : p.1 = k
    · rw [alookup, if_pos hp] at h
      injection h with h
      subst h
      rw [countIn, if_pos rfl]
    · rw [alookup, if_neg hp] at h
      have hne : p.2.num ≠ f0.num := by
        intro he
        exact hnd.1 (he ▸ alookup_num_mem rest k f0 h)
      rw [countIn, if_neg hne]
      exact ih h hnd.2

theorem countIn_aupdate (fns : List (Chars × Footnote)) (k : Chars)
    (f0 f' : Footnote) (h : alookup fns k = some f0) (hnum : f'.num = f0.num)
    (hnd : (fns.map (fun p => p.2.num)).Nodup) (n : Nat) :
    countIn (aupdate fns k f') n =
      if n = f0.num then f'.refCount else countIn fns n := by
  induction fns with
  | nil => simp [alookup] at h
  | cons p rest ih =>
    simp only [List.map_cons, List.nodup_cons] at hnd
    by_cases hp : p.1 = k
    · rw [alookup, if_pos hp] at h
      injection h with h
      subst h
      simp only [aupdate, if_pos hp]
      by_cases hn : n = p.2.num
      · rw [countIn, if_pos (hnum.trans hn.symm), if_pos hn]
      · have hfn : ¬ f'.num = n := by
          rw [hnum]
          exact fun he => hn he.symm
        rw [countIn, if_neg hfn, if_neg hn, countIn,
          if_neg (fun he => hn he.symm)]
    · rw [alookup, if_neg hp] at h
      simp only [aupdate, if_neg hp]
      by_cases hpn : p.2.num = n
      · have hf0 : f0.num ∈ rest.map (fun p => p.2.num) := alookup_num_mem rest k f0 h
        have hne : n ≠ f0.num := by
          intro he
          exact hnd.1 ((hpn.trans he) ▸ hf0)
        rw [countIn, if_pos hpn, if_neg hne, countIn, if_pos hpn]
      · rw [countIn, if_neg hpn, ih h hnd.2]
        by_cases hn : n = f0.num
        · rw [if_pos hn, if_pos hn]
        · rw [if_neg hn, if_neg hn, countIn, if_neg hpn]

theorem mem_range1 (n len : Nat) : n ∈ List.range' 1 len ↔ 1 ≤ n ∧ n ≤ len := by
  rw [List.mem_range']
  constructor
  · rintro ⟨i, hi, rfl⟩
    omega
  · intro h
    exact ⟨n - 1, by omega, by omega⟩

/-- The dictionary after `bump` still assigns ordinals `1..len`. -/
theorem bump_nums_valid (fns : List (Chars × Footnote)) (k : Chars)
    (hn : fns.map (fun p => p.2.num) = List.range' 1 fns.length) :
    ((bump fns k).2).map (fun p => p.2.num) =
      List.range' 1 ((bump fns k).2).length := by
  cases hlk : alookup fns k with
  | none =>
    have hbv : (bump fns k).2 = fns ++ [(k, ⟨fns.length + 1, 1⟩)] := by
      unfold bump
      rw [hlk]
    rw [hbv]
    simp only [List.map_append, List.length_append, List.map_cons, List.map_nil,
      List.length_cons, List.length_nil]
    rw [hn, List.range'_1_concat 1 fns.length]
    simp [Nat.add_comm]
  | some f0 =>
    have hbv : (bump fns k).2 = aupdate fns k ⟨f0.num, f0.refCount + 1⟩ := by
      unfold bump
      rw [hlk]
    rw [hbv, aupdate_map_num fns k f0 ⟨f0.num, f0.refCount + 1⟩ hlk rfl]
    have hlen : (aupdate fns k ⟨f0.num, f0.refCount + 1⟩).length = fns.length := by
      have h2 := congrArg List.length (aupdate_map_fst fns k ⟨f0.num, f0.refCount + 1⟩)
      simpa using h2
    rw [hlen, hn]

/-- `bump` raises exactly the count of the ordinal it returns, by one. -/
theorem countIn_bump (fns : List (Chars × Footnote)) (k : Chars)
    (hn : fns.map (fun p => p.2.num) = List.range' 1 fns.length) :
    (∀ n, countIn ((bump fns k).2) n =
      if n = (bump fns k).1.num then (bump fns k).1.refCount else countIn fns n) ∧
    countIn fns (bump fns k).1.num + 1 = (bump fns k).1.refCount := by
  have hnd : (fns.map (fun p => p.2.num)).Nodup := by
    rw [hn]
    exact List.nodup_range' 1 fns.length
  cases hlk : alookup fns k with
  | none =>
    have hbv2 : (bump fns k).2 = fns ++ [(k, ⟨fns.length + 1, 1⟩)] := by
      unfold bump
      rw [hlk]
    have hbv1 : (bump fns k).1 = ⟨fns.length + 1, 1⟩ := by
      unfold bump
      rw [hlk]
    have hnotmem : (fns.length + 1) ∉ fns.map (fun p => p.2.num) := by
      rw [hn, mem_range1]
      omega
    constructor
    · intro n
      rw [hbv2, countIn_append, hbv1]
      by_cases hmem : n ∈ fns.map (fun p => p.2.num)
      · have hne2 : ¬ n = (Footnote.mk (fns.length + 1) 1).num := by
          intro he
          have he' : n = fns.length + 1 := he
          rw [he'] at hmem
          exact hnotmem hmem
        rw [if_pos hmem, if_neg hne2]
      · rw [if_neg hmem, countIn_eq_zero_of_not_mem fns n hmem]
        by_cases he : n = fns.length + 1
        · have he1 : (k, Footnote.mk (fns.length + 1) 1).2.num = n := he.symm
          have he2 : n = (Footnote.mk (fns.length + 1) 1).num := he
          rw [if_pos he1, if_pos he2]
        · have he1 : ¬ (k, Footnote.mk (fns.length + 1) 1).2.num = n :=
            fun hh => he (Eq.symm hh)
          have he2 : ¬ n = (Footnote.mk (fns.length + 1) 1).num := he
          rw [if_neg he1, if_neg he2]
    · rw [hbv1]
      have hz : countIn fns (Footnote.mk (fns.length + 1) 1).num = 0 :=
        countIn_eq_zero_of_not_mem fns _ hnotmem
      rw [hz]
  | some f0 =>
    have hbv2 : (bump fns k).2 = aupdate fns k ⟨f0.num, f0.refCount + 1⟩ := by
      unfold bump
      rw [hlk]
    have hbv1 : (bump fns k).1 = ⟨f0.num, f0.refCount + 1⟩ := by
      unfold bump
      rw [hlk]
    constructor
    · intro n
      rw [hbv2,
        countIn_aupdate fns k f0 ⟨f0.num, f0.refCount + 1⟩ hlk rfl hnd, hbv1]
    · rw [hbv1]
      have hc := countIn_alookup fns k f0 hlk hnd
      have hc' : countIn fns (Footnote.mk f0.num (f0.refCount + 1)).num =
          f0.refCount := hc
      rw [hc']

/-- Invariant of the citation sweep for the ghost id list: the collected
`(ordinal, subIndex)` pairs are distinct, each sub-index is in `1..26`,
strictly above the count at entry and at most the final count of its
ordinal, and each ordinal belongs to a dictionary entry. -/
theorem sweepRefs_ids_inv (ms : List RefM) (pos hpos : Nat)
    (fns : List (Chars × Footnote)) (em : Chars) (fns2 : List (Chars × Footnote))
    (ids : List (Nat × Nat)) (brk : Option Nat)
    (h : sweepRefs ms pos hpos fns = .ok (em, fns2, ids, brk))
    (hn : fns.map (fun p => p.2.num) = List.range' 1 fns.length) :
    ids.Nodup ∧
    (∀ p ∈ ids, countIn fns p.1 < p.2 ∧ p.2 ≤ countIn fns2 p.1 ∧
      1 ≤ p.2 ∧ p.2 ≤ 26 ∧ p.1 ∈ fns2.map (fun q => q.2.num)) ∧
    (∀ n, countIn fns n ≤ countIn fns2 n) := by
  induction ms generalizing pos fns em ids brk with
  | nil =>
    rw [sweepRefs] at h
    injection h with h
    injection h with h1 h
    injection h with h2 h
    injection h with h3 h
    subst h2
    subst h3
    exact ⟨List.nodup_nil, by simp, fun n => le_refl _⟩
  | cons m rest ih =>
    simp only [sweepRefs] at h
    by_cases hbr : hpos ≤ pos + m.gap.length
    · rw [if_pos hbr] at h
      injection h with h
      injection h with h1 h
      injection h with h2 h
      injection h with h3 h
      subst h2
      subst h3
      exact ⟨List.nodup_nil, by simp, fun n => le_refl _⟩
    · rw [if_neg hbr] at h
      cases hid : getRefHtmlId (bump fns m.marker).1 (bump fns m.marker).1.refCount with
      | none => rw [hid] at h; simp at h
      | some rid =>
        rw [hid] at h
        cases hrec : sweepRefs rest (pos + m.gap.length + m.marker.length) hpos
            (bump fns m.marker).2 with
        | error e => rw [hrec] at h; simp at h
        | ok t =>
          rw [hrec] at h
          obtain ⟨tem, tfns, tids, tbrk⟩ := t
          injection h with h
          injection h with h1 h
          injection h with h2 h
          injection h with h3 h
          subst h2
          subst h3
          subst h
          obtain ⟨hstep, hinc⟩ := countIn_bump fns m.marker hn
          have hn1 := bump_nums_valid fns m.marker hn
          obtain ⟨ihnd, ihval, ihmono⟩ := ih (pos + m.gap.length + m.marker.length)
            (bump fns m.marker).2 tem tids tbrk hrec hn1
          have hle26 : (bump fns m.marker).1.refCount ≤ 26 := by
            unfold getRefHtmlId at hid
            cases hg : getRefName (bump fns m.marker).1.refCount with
            | none => rw [hg] at hid; simp at hid
            | some c => exact getRefName_le_26 _ c hg
          have hmono1 : ∀ n, countIn fns n ≤ countIn (bump fns m.marker).2 n := by
            intro n
            rw [hstep n]
            by_cases he : n = (bump fns m.marker).1.num
            · rw [if_pos he, he]
              omega
            · rw [if_neg he]
          refine ⟨?_, ?_, ?_⟩
          · rw [List.nodup_cons]
            refine ⟨?_, ihnd⟩
            intro hmem
            obtain ⟨hlt, -, -, -, -⟩ := ihval _ hmem
            rw [hstep, if_pos rfl] at hlt
            have hlt2 : (bump fns m.marker).1.refCount <
                (bump fns m.marker).1.refCount := hlt
            exact absurd hlt2 (lt_irrefl _)
          · rintro p hp
            rcases List.mem_cons.mp hp with hp | hp
            · subst hp
              refine ⟨?_, ?_, ?_, ?_, ?_⟩
              · show countIn fns (bump fns m.marker).1.num <
                  (bump fns m.marker).1.refCount
                omega
              · show (bump fns m.marker).1.refCount ≤
                  countIn tfns (bump fns m.marker).1.num
                have hm2 := ihmono (bump fns m.marker).1.num
                rw [hstep, if_pos rfl] at hm2
                exact hm2
              · show 1 ≤ (bump fns m.marker).1.refCount
                exact bump_refCount_pos fns m.marker
              · show (bump fns m.marker).1.refCount ≤ 26
                exact hle26
              · show (bump fns m.marker).1.num ∈ tfns.map (fun q => q.2.num)
                apply countIn_pos_mem
                have hm2 := ihmono (bump fns m.marker).1.num
                rw [hstep, if_pos rfl] at hm2
                have hpos2 := bump_refCount_pos fns m.marker
                omega
            · obtain ⟨ha, hb, hc, hd, he⟩ := ihval p hp
              exact ⟨lt_of_le_of_lt (hmono1 p.1) ha, hb, hc, hd, he⟩
          · intro n
            exact le_trans (hmono1 n) (ihmono n)

/-- Every footnote block whose key is in the dictionary contributes its
ordinal to the ghost anchor list of the footnote sweep. -/
theorem sweepFns_anchor_mem (fms : List FnM) (fns : List (Chars × Footnote))
    (em2 : Chars) (pk orph : List Chars) (an : List Nat)
    (h : sweepFns fms fns = .ok (em2, pk, orph, an))
    (fm : FnM) (hm : fm ∈ fms) (f : Footnote)
    (hlk : alookup fns fm.marker = some f) : f.num ∈ an := by
  revert hm h
  induction fms generalizing em2 pk orph an with
  | nil =>
    intro h hm
    simp at hm
  | cons fm0 rest ih =>
    intro h hm
    rw [sweepFns] at h
    cases hlk0 : alookup fns fm0.marker with
    | none =>
      simp only [hlk0] at h
      cases hrec : sweepFns rest fns with
      | error e => simp [hrec] at h
      | ok t =>
        obtain ⟨tem, tpk, torph, tan⟩ := t
        simp only [hrec] at h
        injection h with h
        injection h with h1 h
        injection h with h2 h
        injection h with h3 h
        subst h
        rcases List.mem_cons.mp hm with hm | hm
        · subst hm
          rw [hlk0] at hlk
          cases hlk
        · exact ih tem tpk torph tan hrec hm
    | some f1 =>
      simp only [hlk0] at h
      cases hrl : refLinks f1 with
      | none => simp [hrl] at h
      | some links =>
        simp only [hrl] at h
        cases hrec : sweepFns rest fns with
        | error e => simp [hrec] at h
        | ok t =>
          obtain ⟨tem, tpk, torph, tan⟩ := t
          simp only [hrec] at h
          injection h with h
          injection h with h1 h
          injection h with h2 h
          injection h with h3 h
          subst h
          rcases List.mem_cons.mp hm with hm | hm
          · subst hm
            rw [hlk0] at hlk
            injection hlk with hlk
            rw [← hlk]
            exact List.mem_cons_self _ _
          · exact List.mem_cons_of_mem _ (ih tem tpk torph tan hrec hm)

/-- `firstOccsAux` produces a duplicate-free list disjoint from `seen`. -/
theorem firstOccsAux_nodup (l : List Chars) : ∀ seen : List Chars,
    (firstOccsAux seen l).Nodup ∧ ∀ x ∈ firstOccsAux seen l, x ∉ seen := by
  induction l with
  | nil =>
    intro seen
    simp [firstOccsAux]
  | cons k ks ih =>
    intro seen
    rw [firstOccsAux]
    by_cases hk : k ∈ seen
    · rw [if_pos hk]
      exact ih seen
    · rw [if_neg hk]
      obtain ⟨ha, hb⟩ := ih (k :: seen)
      refine ⟨?_, ?_⟩
      · rw [List.nodup_cons]
        exact ⟨fun hc => (hb k hc) (by simp), ha⟩
      · intro x hx
        rcases List.mem_cons.mp hx with hx | hx
        · subst hx
          exact hk
        · intro hs
          exact hb x hx (by simp [hs])

theorem alookup_of_mem_nodup (fns : List (Chars × Footnote)) (k : Chars)
    (f : Footnote) (hnd : (fns.map Prod.fst).Nodup) (hm : (k, f) ∈ fns) :
    alookup fns k = some f := by
  induction fns with
  | nil => simp at hm
  | cons p rest ih =>
    simp only [List.map_cons, List.nodup_cons] at hnd
    rcases List.mem_cons.mp hm with hm | hm
    · rw [← hm, alookup, if_pos rfl]
    · have hne : p.1 ≠ k := by
        intro he
        exact hnd.1 (he ▸ (List.mem_map_of_mem Prod.fst hm))
      rw [alookup, if_neg hne]
      exact ih hnd.2 hm

/-- C6 (amended): the generated citation ids — as `(ordinal, subIndex)`
pairs and as rendered id strings — are pairwise distinct,
unconditionally; and, for any footnote sweep over these footnotes in
which every cited key also occurs as the leading marker of some block,
every citation's href target ordinal is the anchor ordinal of some
rewritten footnote paragraph.  (Only the href-resolution part carries
that proviso: without it a cited key with no block yields a dangling
`#note-{ordinal}` target, per the counterexample.) -/
theorem c6_unique_ids_and_targets (ms : List RefM) (hpos : Nat) (em : Chars)
    (fns : List (Chars × Footnote)) (ids : List (Nat × Nat)) (brk : Option Nat)
    (h1 : sweepRefs ms 0 hpos [] = .ok (em, fns, ids, brk)) :
    ids.Nodup ∧ (ids.map refIdStr).Nodup ∧
    (∀ (fms : List FnM) (em2 : Chars) (pk orph : List Chars) (anchors : List Nat),
      sweepFns fms fns = .ok (em2, pk, orph, anchors) →
      (∀ k ∈ fns.map Prod.fst, k ∈ fms.map FnM.marker) →
      ∀ p ∈ ids, p.1 ∈ anchors) := by
  obtain ⟨hnd, hval, hmono⟩ := sweepRefs_ids_inv ms 0 hpos [] em fns ids brk h1 (by simp)
  obtain ⟨hnums, hkeys⟩ := sweepRefs_keys ms 0 hpos [] em fns ids brk h1 (by simp)
  have hknd : (fns.map Prod.fst).Nodup := by
    have hkeys' : fns.map Prod.fst = firstOccsAux [] (preKeys ms 0 hpos) := by
      simpa using hkeys
    rw [hkeys']
    exact (firstOccsAux_nodup (preKeys ms 0 hpos) []).1
  refine ⟨hnd, ?_, ?_⟩
  · apply List.Nodup.map_on ?_ hnd
    intro x hx y hy hxy
    obtain ⟨-, -, hx1, hx2, -⟩ := hval x hx
    obtain ⟨-, -, hy1, hy2, -⟩ := hval y hy
    exact refIdStr_inj x y hx1 hx2 hy1 hy2 hxy
  · intro fms em2 pk orph anchors h2 hcov p hp
    obtain ⟨-, -, -, -, hmem⟩ := hval p hp
    obtain ⟨q, hq, hqn⟩ := List.mem_map.mp hmem
    have hlkq : alookup fns q.1 = some q.2 :=
      alookup_of_mem_nodup fns q.1 q.2 hknd (by simpa using hq)
    obtain ⟨fm, hfm, hfmk⟩ := List.mem_map.mp (hcov q.1 (List.mem_map_of_mem Prod.fst hq))
    have han := sweepFns_anchor_mem fms fns em2 pk orph anchors h2 fm hfm q.2
      (by rw [hfmk]; exact hlkq)
    exact hqn ▸ han

/-- Match list for the C6 witness: one citation of `[ref1]` before the
heading offset 8, then the block's leading marker. -/
def c6ms : List RefM := [⟨str "x", str "[ref1]"⟩, ⟨str "y<h2>Footnotes</h2><p>", str "[ref1]"⟩]

/-- Footnote-match list for the C6 witness. -/
def c6fms : List FnM := [⟨str "g", str "[ref1]", str "n"⟩]

/-- Witness for C6 (amended) at a concrete run of both sweeps. -/
theorem c6_witness :
    ([((1 : Nat), (1 : Nat))].Nodup ∧
      ([((1 : Nat), (1 : Nat))].map refIdStr).Nodup ∧
      ∀ p ∈ [((1 : Nat), (1 : Nat))], p.1 ∈ [1]) :=
  have h := c6_unique_ids_and_targets c6ms 8
    (str "x[<a href=\"#note-1\" id=\"ref-1a\">1</a>]y<h2>Footnotes</h2><p>[ref1]")
    [(str "[ref1]", ⟨1, 1⟩)] [(1, 1)] (some 35) rfl
  ⟨h.1, h.2.1,
   h.2.2 c6fms (str "g<p id=\"note-1\">[1] n <a href=\"#ref-1a\">^</a></p>")
     [str "[ref1]"] [] [1] rfl (by decide)⟩

/-- Input of the C6 counterexample: `[ref2]` is cited but has no footnote
block. -/
def c6inp : Chars := str "a[ref1]b[ref2]c<h2>Footnotes</h2><p>[ref1]n</p>"

/-- Actual output of the Linker on `c6inp`: the `[ref2]` citation is
rewritten as a dangling link to `#note-2`, but no element with id
`note-2` is generated. -/
def c6out : Chars :=
  str "a[<a href=\"#note-1\" id=\"ref-1a\">1</a>]b[<a href=\"#note-2\" id=\"ref-2a\">2</a>]c<h2>Footnotes</h2><p id=\"note-1\">[1] n <a href=\"#ref-1a\">^</a></p>"

/-- Counterexample to C6: with at least one citation, a heading and a
block present, the citation of the undefined key `[ref2]` gets href
target ordinal 2, while the only generated anchor ordinal is 1 — its
href target matches no generated footnote anchor. -/
theorem c6_counterexample :
    linkFootnotes c6inp =
      .ok ⟨c6out, [.refsWithoutFootnotes [str "[ref2]"]], [(1, 1), (2, 1)], [1]⟩ ∧
    containsSub c6out (str "href=\"#note-2\"") = true ∧
    containsSub c6out (str "id=\"note-2\"") = false ∧
    ¬ ∀ p ∈ [((1 : Nat), (1 : Nat)), (2, 1)], p.1 ∈ [1] :=
  ⟨rfl, by decide, by decide, by decide⟩

/-- Match list for the C8 witness: key `ref9` cited, then `ref2`, then
`ref9` again. -/
def c8ms : List RefM := [⟨[], str "[ref9]"⟩, ⟨[], str "[ref2]"⟩, ⟨[], str "[ref9]"⟩]

/-- Witness for C8 at a concrete match list: ordinals `[1, 2]` in first
appearance order `[ref9], [ref2]`. -/
theorem c8_witness :
    ([(str "[ref9]", (⟨1, 2⟩ : Footnote)), (str "[ref2]", ⟨2, 1⟩)].map
        (fun p => p.2.num) =
      List.range' 1 ([(str "[ref9]", (⟨1, 2⟩ : Footnote)),
        (str "[ref2]", ⟨2, 1⟩)].length)) ∧
    ([(str "[ref9]", (⟨1, 2⟩ : Footnote)), (str "[ref2]", ⟨2, 1⟩)].map Prod.fst =
      firstOccs (preKeys c8ms 0 100)) :=
  c8_ordinal_assignment c8ms 100
    (str "[<a href=\"#note-1\" id=\"ref-1a\">1</a>][<a href=\"#note-2\" id=\"ref-2a\">2</a>][<a href=\"#note-1\" id=\"ref-1b\">1</a>]")
    [(str "[ref9]", ⟨1, 2⟩), (str "[ref2]", ⟨2, 1⟩)]
    [(1, 1), (2, 1), (1, 2)] none rfl

end FootnoteLinker
